import Mathlib

/-!
# Verification of `phy/plot/features.py`

A shallow embedding of the feature-grid plotting core of the `phy` spike
sorting package, together with theorems checking the module specification
against the code.

Modelling conventions:

* numpy float arrays are modelled with `ℚ` (no rounding is relevant to any
  property considered here);
* a 3-D feature tensor or a 2-D mask matrix is modelled by its index
  function together with its dimensions, a 1-D array by a `List ℚ`;
* a Python value that is either an `int`, a `(channel, feature)` pair or
  the string `'time'` is modelled by the inductive type `RawDim`;
* a Python function that may return a value, return `None`, or raise an
  exception is modelled with the three-cased `PyRes`; a function that
  mutates `self` and may raise is modelled with `Except` carrying the
  mutated state in both cases (Python objects keep partial mutations on an
  exception).
-/

set_option autoImplicit false

namespace Phy

/-- A dynamic "dimension" value as accepted by the Python code: a bare
integer channel, a `(channel, feature)` tuple, or the string `'time'`. -/
inductive RawDim where
  | int (c : ℕ)
  | pair (c f : ℕ)
  | time
  deriving DecidableEq, Repr

/-- Result of a Python call: a returned value, an (implicit) `return None`
falling off the end of the function, or a raised exception. -/
inductive PyRes (α : Type) where
  | val (a : α)
  | pyNone
  | exn
  deriving DecidableEq, Repr

/-- Embeds `_alternative_dimension(dim, n_features, n_channels)`.
`none` models the `TypeError` raised by the tuple unpacking
`channel, fet = dim` when `dim` is a bare integer.  The `assert`s on
`n_features`/`n_channels` appear as hypotheses of the theorems. -/
def _alternative_dimension (dim : RawDim) (n_features n_channels : ℕ) :
    Option RawDim :=
  if ¬ (1 ≤ n_features ∧ 1 ≤ n_channels) then none
  else if dim = .time then some (.pair 0 0)
  else
    match dim with
    | .pair channel fet =>
        if 2 ≤ n_features then some (.pair channel ((fet + 1) % n_features))
        else if 2 ≤ n_channels then some (.pair ((channel + 1) % n_channels) fet)
        else some .time
    | _ => none

/-- The body of the double loop of `_matrix_from_dimensions` for the cell
`(i, j)`: take `dim_x = dimensions[i]`, `dim_y = dimensions[j]`, replace
`dim_y` by the alternative dimension when they are equal, and swap the
pair when the alternative is `'time'`. -/
def _matrix_cell (dimensions : List RawDim) (n_features n_channels : ℕ)
    (i j : ℕ) : Option (RawDim × RawDim) :=
  let dim_x := dimensions.getD i .time
  let dim_y := dimensions.getD j .time
  if dim_x = dim_y then
    match _alternative_dimension dim_x n_features n_channels with
    | none => none
    | some d => some (if d = .time then (d, dim_x) else (dim_x, d))
  else some (dim_x, dim_y)

/-- Embeds `_matrix_from_dimensions(dimensions, n_features, n_channels)`:
the `n × n` matrix whose `(i, j)` entry is `_matrix_cell ... i j`.  The
result is `none` when some cell raises. -/
def _matrix_from_dimensions (dimensions : List RawDim)
    (n_features n_channels : ℕ) : Option (List (List (RawDim × RawDim))) :=
  let n := dimensions.length
  (List.range n).mapM fun i =>
    (List.range n).mapM fun j =>
      _matrix_cell dimensions n_features n_channels i j

/-- The alternative-dimension rule exactly as the specification words it:
`Time ↦ ChannelFeature(0,0)`; otherwise, with `n_features ≥ 2`, same
channel and feature incremented mod `n_features`; otherwise, with
`n_channels ≥ 2`, channel incremented mod `n_channels` and same feature;
otherwise `Time`. -/
def alternativeSpec (dim : RawDim) (n_features n_channels : ℕ) : RawDim :=
  match dim with
  | .time => .pair 0 0
  | .pair c f =>
      if 2 ≤ n_features then .pair c ((f + 1) % n_features)
      else if 2 ≤ n_channels then .pair ((c + 1) % n_channels) f
      else .time
  | .int c => .int c

/-- The resolved cell as the specification words it: the default pair is
`(requested[i], requested[j])`; on a self-pairing, `dim_y` becomes the
alternative of `dim_x`, and the pair is swapped when the alternative is
`Time`. -/
def resolveCellSpec (dimensions : List RawDim) (n_features n_channels : ℕ)
    (i j : ℕ) : RawDim × RawDim :=
  let dim_x := dimensions.getD i .time
  let dim_y := dimensions.getD j .time
  if dim_x = dim_y then
    let d := alternativeSpec dim_x n_features n_channels
    if d = .time then (d, dim_x) else (dim_x, d)
  else (dim_x, dim_y)

/-- A well-formed requested dimension in the sense of the specification's
data model: `Time` or a `(channel, feature)` pair, never a bare integer. -/
def RawDim.wf : RawDim → Bool
  | .int _ => false
  | .pair _ _ => true
  | .time => true

/-- `r.isVal` holds when a Python call returned an actual value (not
`None`, not an exception). -/
def PyRes.isVal {α : Type} : PyRes α → Bool
  | .val _ => true
  | _ => false

/-- The state of a `FeatureVisual` object: counts derived from the feature
tensor, the tensor and the mask matrix as index functions, the optional
spike-sample array, and the dimensions matrix with its row count
(`n_rows` is `None` before a matrix is first set). -/
structure Visual where
  n_spikes : ℕ
  n_channels : ℕ
  n_features : ℕ
  features : ℕ → ℕ → ℕ → ℚ
  masks : ℕ → ℕ → ℚ
  spike_samples : Option (List ℚ)
  n_rows : Option ℕ
  dimensions_matrix : List (List (RawDim × RawDim))

/-- `t.max()` of numpy: the maximum of a 1-D array, raising (`none`) on an
empty array ("zero-size array to reduction operation maximum"). -/
def npMax : List ℚ → Option ℚ
  | [] => none
  | x :: xs => some (xs.foldl max x)

/-- The time values used by the `'time'` branch of `_get_feature_dim`:
`self._spike_samples` when present, else `np.arange(self.n_spikes)`. -/
def timeValues (st : Visual) : List ℚ :=
  match st.spike_samples with
  | some t => t
  | none => (List.range st.n_spikes).map fun k => (k : ℚ)

/-- Embeds `BaseFeatureVisual._get_feature_dim(data, dim)` with
`data = self._features`.  A `(channel, feature)` pair extracts the column
`data[:, channel, feature]`; `'time'` takes the spike samples (or
`arange(n_spikes)`), computes `m = t.max()` — an exception on an empty
array — and rescales by `(-1 + 2*t/m) * .8` when `m > 0`; a bare integer
matches neither branch, so the function falls through and returns `None`. -/
def _get_feature_dim (st : Visual) (dim : RawDim) : PyRes (List ℚ) :=
  match dim with
  | .pair channel feature =>
      .val ((List.range st.n_spikes).map fun s => st.features s channel feature)
  | .time =>
      match npMax (timeValues st) with
      | none => .exn
      | some m =>
          .val (if 0 < m
            then (timeValues st).map fun x => (-1 + 2 * x / m) * (4 / 5)
            else timeValues st)
  | .int _ => .pyNone

/-- The time normalization as the specification words it: with
`m = max(t)`, remap every value to `(-1 + 2*t/m) * 0.8` when `m > 0`,
else leave the values unchanged — including the all-zero and empty
cases. -/
def normalizeTimeSpec (t : List ℚ) : List ℚ :=
  match npMax t with
  | none => t
  | some m => if 0 < m then t.map fun x => (-1 + 2 * x / m) * (4 / 5) else t

/-- Embeds `FeatureVisual._get_mask_dim(dim)`: a `(channel, feature)` pair
takes the mask column `masks[:, channel]`, `'time'` an all-ones vector of
length `n_spikes`; a bare integer falls through and returns `None`. -/
def _get_mask_dim (st : Visual) (dim : RawDim) : Option (List ℚ) :=
  match dim with
  | .pair channel _feature =>
      some ((List.range st.n_spikes).map fun s => st.masks s channel)
  | .time => some (List.replicate st.n_spikes 1)
  | .int _ => none

/-- `self._dimensions_matrix[i, j]` (out-of-range access never occurs in
the verified flows; the default is arbitrary). -/
def cellAt (matrix : List (List (RawDim × RawDim))) (i j : ℕ) :
    RawDim × RawDim :=
  (matrix.getD i []).getD j (.time, .time)

/-- Embeds `BaseFeatureVisual.project(data, (i, j))`: the two feature
columns of the cell's dimensions, zipped into `(x, y)` points
(`np.c_[fet_x, fet_y]`). -/
def project (st : Visual) (i j : ℕ) : PyRes (List (ℚ × ℚ)) :=
  match _get_feature_dim st (cellAt st.dimensions_matrix i j).1 with
  | .val fet_x =>
      match _get_feature_dim st (cellAt st.dimensions_matrix i j).2 with
      | .val fet_y => .val (fet_x.zip fet_y)
      | .pyNone => .pyNone
      | .exn => .exn
  | .pyNone => .pyNone
  | .exn => .exn

/-- The flat buffers produced by `FeatureVisual._bake_spikes`. -/
structure Baked where
  positions : List (ℚ × ℚ)
  masks : List ℚ
  boxes : List ℕ
  deriving DecidableEq, Repr

/-- The cells `(i, j)` of the grid in the row-major order of the double
loop `for i in range(n_rows): for j in range(n_rows)`. -/
def gridCells (n_rows : ℕ) : List (ℕ × ℕ) :=
  (List.range n_rows).flatMap fun i => (List.range n_rows).map fun j => (i, j)

/-- The loop body of `FeatureVisual._bake_spikes` over a list of cells:
project the cell, derive the mask from the cell's y dimension, and append
`n_spikes` copies of the box index `n_rows*i + j`.  A `None` column makes
the downstream `np.c_`/`vstack`/`astype` fail, modelled as an
exception. -/
def bakeCells (st : Visual) (n_rows : ℕ) : List (ℕ × ℕ) → PyRes Baked
  | [] => .val ⟨[], [], []⟩
  | (i, j) :: rest =>
      match project st i j with
      | .val pos =>
          match _get_mask_dim st (cellAt st.dimensions_matrix i j).2 with
          | some mask =>
              match bakeCells st n_rows rest with
              | .val b => .val ⟨pos ++ b.positions, mask ++ b.masks,
                  List.replicate st.n_spikes (n_rows * i + j) ++ b.boxes⟩
              | r => r
          | none => .exn
      | .pyNone => .exn
      | .exn => .exn

/-- Embeds `FeatureVisual._bake_spikes`: run the double loop over all
cells, then check the final shape assertions
`positions.shape == (n_points, 2)`, `masks.shape == (n_points,)` and
`boxes.shape == (n_points,)` with `n_points = n_boxes * n_spikes`. -/
def _bake_spikes (st : Visual) : PyRes Baked :=
  let n_rows := st.n_rows.getD 0
  let n_points := n_rows * n_rows * st.n_spikes
  match bakeCells st n_rows (gridCells n_rows) with
  | .val b =>
      if b.positions.length = n_points ∧ b.masks.length = n_points ∧
          b.boxes.length = n_points
      then .val b else .exn
  | r => r

/-- Embeds `BaseFeatureVisual._check_dimension(dim)` as a predicate
(`false` models a raised `AssertionError`/`ValueError`).  A bare integer
`c` is first replaced by the pair `(c, 0)`; pairs check
`0 ≤ channel < n_channels` and `0 ≤ feature < n_features`; the string
`'time'` is accepted. -/
def _check_dimension (n_channels n_features : ℕ) : RawDim → Bool
  | .int c => decide (c < n_channels) && decide (0 < n_features)
  | .pair c f => decide (c < n_channels) && decide (f < n_features)
  | .time => true

/-- The squareness assertions of `_set_dimensions_to_bake`
(`value.ndim == 2 and value.shape[0] == value.shape[1]`). -/
def squareMatrix (value : List (List (RawDim × RawDim))) : Bool :=
  value.all fun row => row.length == value.length

/-- The per-dimension validation loop of `_set_dimensions_to_bake`:
`_check_dimension` on both components of every cell. -/
def matrixDimsOk (st : Visual) (value : List (List (RawDim × RawDim))) :
    Bool :=
  value.all fun row => row.all fun p =>
    _check_dimension st.n_channels st.n_features p.1 &&
    _check_dimension st.n_channels st.n_features p.2

/-- Embeds `BaseFeatureVisual._set_dimensions_to_bake(value)`.  The shape
assertions run first; then `self.n_rows = len(value)` is assigned;
only then is every dimension checked, and on success the matrix is
installed.  `Except.error` carries the mutated object left behind by a
raised assertion (Python keeps partial mutations). -/
def _set_dimensions_to_bake (st : Visual)
    (value : List (List (RawDim × RawDim))) : Except Visual Visual :=
  if ¬ squareMatrix value then .error st
  else
    let st1 := { st with n_rows := some value.length }
    if matrixDimsOk st1 value then .ok { st1 with dimensions_matrix := value }
    else .error st1

/-- Decides whether a setter call failed (raised). -/
def setterFailed {α : Type} : Except α α → Bool
  | .error _ => true
  | .ok _ => false

/-- The mutated object after a setter call, whether it raised or not. -/
def setterState {α : Type} : Except α α → α
  | .error s => s
  | .ok s => s

/-- Embeds the `features` handling at the head of `FeatureView.set_data`,
acting on the shape of the passed array: a 2-D array gets a trailing
singleton axis appended (`features[..., None]`), then
`assert features.ndim == 3`. -/
def set_data_features_shape (shape : List ℕ) : Except Unit (List ℕ) :=
  let shape' := if shape.length = 2 then shape ++ [1] else shape
  if shape'.length = 3 then .ok shape' else .error ()

/-- The axis-lock marks written into the `gpza` character matrix of
`FeatureView._set_pan_constraints`: `'b'` (both axes free, the initial
fill), `'x'`, `'y'` and `'n'`. -/
inductive AxisLock where
  | both
  | xonly
  | yonly
  | nofree
  deriving DecidableEq, Repr

/-- The per-cell bounds and lock computed by `_set_pan_constraints`
(`none` models the `np.nan` fill meaning "unconstrained"). -/
structure CellCons where
  xmin : Option ℚ
  xmax : Option ℚ
  ymin : Option ℚ
  ymax : Option ℚ
  lock : AxisLock
  deriving DecidableEq, Repr

/-- The loop body of `_set_pan_constraints` for one cell: `dim_x = 'time'`
locks x to `[-1, 1]` and marks `'x'`; `dim_y = 'time'` locks y to
`[-1, 1]` and marks `'y'`, or `'n'` when the mark is already `'x'`. -/
def _pan_cell (p : RawDim × RawDim) : CellCons :=
  let x : Option ℚ × Option ℚ × AxisLock :=
    if p.1 = .time then (some (-1), some 1, .xonly) else (none, none, .both)
  if p.2 = .time then
    ⟨x.1, x.2.1, some (-1), some 1,
      if x.2.2 ≠ AxisLock.xonly then .yonly else .nofree⟩
  else ⟨x.1, x.2.1, none, none, x.2.2⟩

/-- The `_index_set` part of the loop of `_set_pan_constraints`: the first
cell (in the given order) whose `dim_y` is not `'time'` sets
`self._pz._index = (i, i)`; later cells leave it unchanged. -/
def _pan_index_loop (matrix : List (List (RawDim × RawDim))) :
    List (ℕ × ℕ) → Option (ℕ × ℕ)
  | [] => none
  | p :: rest =>
      if (cellAt matrix p.1 p.2).2 = .time then _pan_index_loop matrix rest
      else some (p.1, p.1)

/-- The output of `FeatureView._set_pan_constraints(matrix)`: per-cell
bounds `xmin/xmax/ymin/ymax`, the `gpza` lock matrix, and the default
active cell index handed to the pan-zoom grid. -/
structure PanConstraints where
  xmin : ℕ → ℕ → Option ℚ
  xmax : ℕ → ℕ → Option ℚ
  ymin : ℕ → ℕ → Option ℚ
  ymax : ℕ → ℕ → Option ℚ
  gpza : ℕ → ℕ → AxisLock
  index : Option (ℕ × ℕ)

/-- Embeds `FeatureView._set_pan_constraints(matrix)`. -/
def _set_pan_constraints (matrix : List (List (RawDim × RawDim))) :
    PanConstraints where
  xmin i j := (_pan_cell (cellAt matrix i j)).xmin
  xmax i j := (_pan_cell (cellAt matrix i j)).xmax
  ymin i j := (_pan_cell (cellAt matrix i j)).ymin
  ymax i j := (_pan_cell (cellAt matrix i j)).ymax
  gpza i j := (_pan_cell (cellAt matrix i j)).lock
  index := _pan_index_loop matrix (gridCells matrix.length)

/-- Modelled from the spec: `_index_of(arr, lookup)` (imported from
`phy.utils.array`, not part of the sources at hand) maps "each spike's
raw cluster id through ClusterOrder to obtain a dense 0-based index". -/
def _index_of (arr lookup : List ℤ) : List ℕ :=
  arr.map fun x => lookup.indexOf x

/-- `np.tile(v, n)`: `n` concatenated copies of the 1-D array `v`. -/
def npTile {α : Type} (v : List α) (n : ℕ) : List α :=
  List.flatten (List.replicate n v)

/-- Embeds `FeatureVisual._bake_spikes_clusters`: map the spike clusters
through the cluster order, then tile once per box (`self.n_boxes`
copies). -/
def _bake_spikes_clusters (spike_clusters cluster_order : List ℤ)
    (n_boxes : ℕ) : List ℕ :=
  npTile (_index_of spike_clusters cluster_order) n_boxes

/-! ### Lemmas for the dimension resolver -/

lemma succ_mod_ne (f nf : ℕ) (h : 2 ≤ nf) : (f + 1) % nf ≠ f := by
  intro he
  rcases Nat.lt_or_ge (f + 1) nf with hlt | hge
  · rw [Nat.mod_eq_of_lt hlt] at he
    omega
  · have hm : (f + 1) % nf < nf := Nat.mod_lt _ (by omega)
    have hnf : nf = f + 1 := by omega
    subst hnf
    simp [Nat.mod_self] at he
    omega

lemma alternativeSpec_ne (d : RawDim) (nf nc : ℕ) (hwf : d.wf = true) :
    alternativeSpec d nf nc ≠ d := by
  cases d with
  | int c => simp [RawDim.wf] at hwf
  | time => simp [alternativeSpec]
  | pair c f =>
      simp only [alternativeSpec]
      by_cases hnf : 2 ≤ nf
      · simp only [hnf, if_true]
        intro he
        exact succ_mod_ne f nf hnf (by injection he)
      · simp only [hnf, if_false]
        by_cases hnc : 2 ≤ nc
        · simp only [hnc, if_true]
          intro he
          exact succ_mod_ne c nc hnc (by injection he)
        · simp [hnc]

lemma alternative_dimension_eq_spec (d : RawDim) (nf nc : ℕ)
    (hf : 1 ≤ nf) (hc : 1 ≤ nc) (hwf : d.wf = true) :
    _alternative_dimension d nf nc = some (alternativeSpec d nf nc) := by
  cases d with
  | int c => simp [RawDim.wf] at hwf
  | time => simp [_alternative_dimension, alternativeSpec, hf, hc]
  | pair c f =>
      simp only [_alternative_dimension, alternativeSpec, hf, hc, and_self,
        not_true_eq_false, if_false, reduceCtorEq, ite_false]
      split_ifs <;> rfl

lemma getD_wf (dims : List RawDim) (hwf : ∀ d ∈ dims, d.wf = true) (i : ℕ) :
    (dims.getD i .time).wf = true := by
  rw [List.getD_eq_getElem?_getD]
  cases h : dims[i]? with
  | none => rfl
  | some a => exact hwf a (List.getElem?_mem h)

lemma matrix_cell_eq_spec (dims : List RawDim) (nf nc : ℕ)
    (hf : 1 ≤ nf) (hc : 1 ≤ nc) (hwf : ∀ d ∈ dims, d.wf = true) (i j : ℕ) :
    _matrix_cell dims nf nc i j = some (resolveCellSpec dims nf nc i j) := by
  simp only [_matrix_cell, resolveCellSpec,
    alternative_dimension_eq_spec _ nf nc hf hc (getD_wf dims hwf i),
    apply_ite some]

lemma mapM_option_eq_some_map {α β : Type} (f : α → Option β) (g : α → β)
    (l : List α) (h : ∀ a ∈ l, f a = some (g a)) :
    l.mapM f = some (l.map g) := by
  induction l with
  | nil => rfl
  | cons x xs ih =>
      simp only [List.mapM_cons, h x (by simp), List.map_cons,
        Option.bind_eq_bind, Option.some_bind,
        ih fun a ha => h a (List.mem_cons_of_mem x ha)]
      rfl

/-- C1: for every list of requested dimensions (well-formed `Time` or
`(channel, feature)` values) and every `n_features ≥ 1`, `n_channels ≥ 1`,
`_matrix_from_dimensions` produces the matrix whose `(i, j)` cell is
`(requested[i], requested[j])`, with `dim_y` replaced by the alternative
of `dim_x` on a self-pairing (Time ↦ ChannelFeature(0,0); else same
channel with feature incremented mod `n_features` when `n_features ≥ 2`;
else incremented channel mod `n_channels` with same feature when
`n_channels ≥ 2`; else Time, swapped onto the x axis), and no diagonal
cell `(i, i)` ever has `dim_x = dim_y`. -/
theorem c1_resolved_matrix (dims : List RawDim) (nf nc : ℕ)
    (hf : 1 ≤ nf) (hc : 1 ≤ nc) (hwf : ∀ d ∈ dims, d.wf = true) :
    _matrix_from_dimensions dims nf nc =
      some ((List.range dims.length).map fun i =>
        (List.range dims.length).map fun j => resolveCellSpec dims nf nc i j) ∧
    ∀ i, i < dims.length →
      (resolveCellSpec dims nf nc i i).1 ≠ (resolveCellSpec dims nf nc i i).2 := by
  constructor
  · unfold _matrix_from_dimensions
    refine mapM_option_eq_some_map _ _ _ fun i _ => ?_
    exact mapM_option_eq_some_map _ _ _ fun j _ =>
      matrix_cell_eq_spec dims nf nc hf hc hwf i j
  · intro i _
    have hwfi : (dims.getD i .time).wf = true := getD_wf dims hwf i
    have hne := alternativeSpec_ne (dims.getD i .time) nf nc hwfi
    simp only [resolveCellSpec, if_pos rfl]
    by_cases ht : alternativeSpec (dims.getD i .time) nf nc = RawDim.time
    · simp only [ht, if_true, ite_true]
      intro he
      exact hne (ht.trans he)
    · simp only [ht, ite_false]
      intro he
      exact hne he.symm

/-- Witness for C1 at the concrete input
`dims = [Time, ChannelFeature(0,0)]`, `n_features = n_channels = 1`:
the cell `(0, 0)` self-pairs `Time`, whose alternative is
`ChannelFeature(0, 0)`. -/
theorem c1_resolved_matrix_witness :
    _matrix_from_dimensions [RawDim.time, RawDim.pair 0 0] 1 1 =
      some ((List.range 2).map fun i =>
        (List.range 2).map fun j =>
          resolveCellSpec [RawDim.time, RawDim.pair 0 0] 1 1 i j) ∧
    (resolveCellSpec [RawDim.time, RawDim.pair 0 0] 1 1 0 0).1 ≠
      (resolveCellSpec [RawDim.time, RawDim.pair 0 0] 1 1 0 0).2 := by
  have h := c1_resolved_matrix [RawDim.time, RawDim.pair 0 0] 1 1
    (by decide) (by decide) (by decide)
  exact ⟨h.1, h.2 0 (by decide)⟩

/-! ### Lemmas for the grid baker -/

lemma bakeCells_boxes (st : Visual) (n_rows : ℕ) (L : List (ℕ × ℕ))
    (b : Baked) (h : bakeCells st n_rows L = .val b) :
    b.boxes = L.flatMap fun p => List.replicate st.n_spikes (n_rows * p.1 + p.2) := by
  induction L generalizing b with
  | nil =>
      simp only [bakeCells, PyRes.val.injEq] at h
      subst h
      rfl
  | cons p rest ih =>
      obtain ⟨i, j⟩ := p
      cases hp : project st i j with
      | val pos =>
          cases hm : _get_mask_dim st (cellAt st.dimensions_matrix i j).2 with
          | some mask =>
              cases hr : bakeCells st n_rows rest with
              | val b' =>
                  simp only [bakeCells, hp, hm, hr, PyRes.val.injEq] at h
                  subst h
                  simp [List.flatMap_cons, ih b' hr]
              | pyNone => simp [bakeCells, hp, hm, hr] at h
              | exn => simp [bakeCells, hp, hm, hr] at h
          | none => simp [bakeCells, hp, hm] at h
      | pyNone => simp [bakeCells, hp] at h
      | exn => simp [bakeCells, hp] at h

lemma range_flatMap_range (a b : ℕ) :
    (List.range a).flatMap (fun i => (List.range b).map fun j => b * i + j) =
      List.range (a * b) := by
  induction a with
  | zero => simp
  | succ a ih =>
      rw [List.range_succ, List.flatMap_append, ih, Nat.succ_mul,
        List.range_add]
      simp [Nat.mul_comm]

lemma gridCells_map (n : ℕ) :
    (gridCells n).map (fun p => n * p.1 + p.2) = List.range (n * n) := by
  unfold gridCells
  rw [List.map_flatMap]
  simp only [List.map_map, Function.comp]
  exact range_flatMap_range n n

lemma gridCells_flatMap_replicate (n ns : ℕ) :
    ((gridCells n).flatMap fun p => List.replicate ns (n * p.1 + p.2)) =
      (List.range (n * n)).flatMap fun k => List.replicate ns k := by
  rw [← gridCells_map n, List.flatMap_map]

lemma count_range_flatMap_replicate (m ns k : ℕ) (hk : k < m) :
    ((List.range m).flatMap fun x => List.replicate ns x).count k = ns := by
  induction m with
  | zero => omega
  | succ m ih =>
      rw [List.range_succ, List.flatMap_append, List.count_append]
      simp only [List.flatMap_cons, List.flatMap_nil, List.append_nil]
      rcases Nat.lt_or_ge k m with h | h
      · rw [ih h, List.count_replicate]
        have : (m == k) = false := by simp; omega
        simp [this]
      · have hk2 : k = m := by omega
        subst hk2
        have h0 : ((List.range k).flatMap fun x => List.replicate ns x).count k = 0 := by
          rw [List.count_eq_zero]
          simp only [List.mem_flatMap, List.mem_range, List.mem_replicate]
          rintro ⟨x, hx, _, rfl⟩
          omega
        rw [h0, List.count_replicate]
        simp

/-- C2: whenever `_bake_spikes` completes on an `n × n` dimensions matrix
(`n_rows = n`), the position buffer has `n² * n_spikes` rows of two
coordinates, and the box-index buffer is the concatenation, in increasing
row-major order of the box linear index `n_rows*i + j`, of one block of
`n_spikes` copies per box — so every index in `{0, …, n² - 1}` occurs
exactly `n_spikes` times. -/
theorem c2_bake_shapes (st : Visual) (n : ℕ) (b : Baked)
    (hrows : st.n_rows = some n) (hb : _bake_spikes st = .val b) :
    b.positions.length = n * n * st.n_spikes ∧
    b.masks.length = n * n * st.n_spikes ∧
    b.boxes = ((List.range (n * n)).flatMap fun k =>
      List.replicate st.n_spikes k) ∧
    ∀ k, k < n * n → b.boxes.count k = st.n_spikes := by
  simp only [_bake_spikes, hrows, Option.getD_some] at hb
  cases hc : bakeCells st n (gridCells n) with
  | val c =>
      simp only [hc] at hb
      split at hb
      case isTrue hlen =>
        have hcb : c = b := by injection hb
        subst hcb
        have hboxes : c.boxes = (List.range (n * n)).flatMap fun k =>
            List.replicate st.n_spikes k := by
          rw [bakeCells_boxes st n (gridCells n) c hc,
            gridCells_flatMap_replicate]
        refine ⟨hlen.1, hlen.2.1, hboxes, fun k hk => ?_⟩
        rw [hboxes]
        exact count_range_flatMap_replicate (n * n) st.n_spikes k hk
      case isFalse h => cases hb
  | pyNone => simp only [hc] at hb; cases hb
  | exn => simp only [hc] at hb; cases hb

/-- The concrete visual for the C2 witness: two spikes, one channel, one
feature, a 2 × 2 dimensions matrix of `(ChannelFeature(0,0), Time)`
cells. -/
def c2Visual : Visual where
  n_spikes := 2
  n_channels := 1
  n_features := 1
  features := fun _ _ _ => 0
  masks := fun _ _ => 1
  spike_samples := none
  n_rows := some 2
  dimensions_matrix :=
    [[(.pair 0 0, .pair 0 0), (.pair 0 0, .pair 0 0)],
     [(.pair 0 0, .pair 0 0), (.pair 0 0, .pair 0 0)]]

/-- The buffers `_bake_spikes` produces on `c2Visual`. -/
def c2Baked : Baked where
  positions := [(0, 0), (0, 0), (0, 0), (0, 0),
    (0, 0), (0, 0), (0, 0), (0, 0)]
  masks := [1, 1, 1, 1, 1, 1, 1, 1]
  boxes := [0, 0, 1, 1, 2, 2, 3, 3]

/-- Witness for C2 on `c2Visual`: the position buffer of the completed
bake has `2·2·2` rows. -/
theorem c2_bake_shapes_witness :
    c2Baked.positions.length = 2 * 2 * c2Visual.n_spikes :=
  (c2_bake_shapes c2Visual 2 c2Baked rfl (by decide)).1

/-! ### The time projection (claim C3) -/

/-- A visual whose spike-sample array is empty: `t.max()` raises on it. -/
def c3Visual : Visual where
  n_spikes := 0
  n_channels := 1
  n_features := 1
  features := fun _ _ _ => 0
  masks := fun _ _ => 1
  spike_samples := some []
  n_rows := some 1
  dimensions_matrix := [[(.time, .pair 0 0)]]

/-- C3 counterexample: on an empty spike-time array the code does not
leave the values unchanged — `t.max()` raises a `ValueError` on a
zero-size array, so the time projection aborts instead of returning the
(empty) array. -/
theorem c3_time_empty_counterexample :
    _get_feature_dim c3Visual RawDim.time = PyRes.exn ∧
    PyRes.exn ≠ PyRes.val (normalizeTimeSpec []) := by
  constructor
  · rfl
  · intro h
    cases h

/-- C3 (amended): when the effective time array (the spike samples when
present, else `0..n_spikes-1`) is nonempty, the projection returns it
normalized by `t ↦ (-1 + 2*t/m) * 0.8` when `m = max(t) > 0` and
unchanged otherwise (so all-zero arrays come back as zeros, not NaN);
`[0, 10]` normalizes to `[-0.8, 0.8]`.  On an empty array the maximum
reduction raises instead. -/
theorem c3_time_normalization (st : Visual) (hne : timeValues st ≠ []) :
    _get_feature_dim st RawDim.time =
      PyRes.val (normalizeTimeSpec (timeValues st)) ∧
    (st.spike_samples = none →
      timeValues st = (List.range st.n_spikes).map fun k => (k : ℚ)) ∧
    normalizeTimeSpec [0, 10] = [-(4 / 5), 4 / 5] ∧
    normalizeTimeSpec [0, 0, 0] = [0, 0, 0] := by
  refine ⟨?_, fun h => by simp [timeValues, h],
    by norm_num [normalizeTimeSpec, npMax],
    by norm_num [normalizeTimeSpec, npMax]⟩
  cases h : timeValues st with
  | nil => exact absurd h hne
  | cons x xs => simp only [_get_feature_dim, normalizeTimeSpec, h, npMax]

/-- A visual carrying the spike-time array `[0, 10]` of the
specification's example. -/
def c3WitnessVisual : Visual where
  n_spikes := 2
  n_channels := 1
  n_features := 1
  features := fun _ _ _ => 0
  masks := fun _ _ => 1
  spike_samples := some [0, 10]
  n_rows := some 1
  dimensions_matrix := [[(.time, .pair 0 0)]]

/-- Witness for C3 on the spike-time array `[0, 10]`. -/
theorem c3_time_normalization_witness :
    _get_feature_dim c3WitnessVisual RawDim.time =
      PyRes.val (normalizeTimeSpec (timeValues c3WitnessVisual)) :=
  (c3_time_normalization c3WitnessVisual (by simp [timeValues, c3WitnessVisual])).1

/-! ### Mask derivation (claim C4) -/

lemma bakeCells_masks (st : Visual) (n_rows : ℕ) (L : List (ℕ × ℕ))
    (b : Baked) (h : bakeCells st n_rows L = .val b) :
    b.masks = L.flatMap fun p =>
      (_get_mask_dim st (cellAt st.dimensions_matrix p.1 p.2).2).getD [] := by
  induction L generalizing b with
  | nil =>
      simp only [bakeCells, PyRes.val.injEq] at h
      subst h
      rfl
  | cons p rest ih =>
      obtain ⟨i, j⟩ := p
      cases hp : project st i j with
      | val pos =>
          cases hm : _get_mask_dim st (cellAt st.dimensions_matrix i j).2 with
          | some mask =>
              cases hr : bakeCells st n_rows rest with
              | val b' =>
                  simp only [bakeCells, hp, hm, hr, PyRes.val.injEq] at h
                  subst h
                  simp [List.flatMap_cons, ih b' hr, hm]
              | pyNone => simp [bakeCells, hp, hm, hr] at h
              | exn => simp [bakeCells, hp, hm, hr] at h
          | none => simp [bakeCells, hp, hm] at h
      | pyNone => simp [bakeCells, hp] at h
      | exn => simp [bakeCells, hp] at h

/-- C4: the per-point mask of a cell is derived from the y dimension
only — `ChannelFeature(c, f)` yields exactly the mask column
`masks[:, c]` in order, `Time` yields an all-ones vector of length
`n_spikes`, the x dimension never matters — and the baked mask buffer is
the concatenation of those per-cell masks over the grid. -/
theorem c4_mask_from_y_dimension (st : Visual) (c f : ℕ) :
    _get_mask_dim st (RawDim.pair c f) =
      some ((List.range st.n_spikes).map fun s => st.masks s c) ∧
    _get_mask_dim st RawDim.time = some (List.replicate st.n_spikes 1) ∧
    (∀ dx dx' dy : RawDim,
      _get_mask_dim st ((dx, dy) : RawDim × RawDim).2 =
        _get_mask_dim st ((dx', dy) : RawDim × RawDim).2) ∧
    ∀ b : Baked, _bake_spikes st = .val b →
      b.masks = (gridCells (st.n_rows.getD 0)).flatMap fun p =>
        (_get_mask_dim st (cellAt st.dimensions_matrix p.1 p.2).2).getD [] := by
  refine ⟨rfl, rfl, fun _ _ _ => rfl, fun b hb => ?_⟩
  simp only [_bake_spikes] at hb
  cases hc : bakeCells st (st.n_rows.getD 0) (gridCells (st.n_rows.getD 0)) with
  | val c' =>
      simp only [hc] at hb
      split at hb
      case isTrue hlen =>
        have hcb : c' = b := by injection hb
        subst hcb
        exact bakeCells_masks st (st.n_rows.getD 0) _ c' hc
      case isFalse h => cases hb
  | pyNone => simp only [hc] at hb; cases hb
  | exn => simp only [hc] at hb; cases hb

/-- Witness for C4 on `c2Visual`: the baked mask buffer is the
concatenation of the per-cell y-derived mask columns. -/
theorem c4_mask_from_y_dimension_witness :
    c2Baked.masks = (gridCells (c2Visual.n_rows.getD 0)).flatMap fun p =>
      (_get_mask_dim c2Visual
        (cellAt c2Visual.dimensions_matrix p.1 p.2).2).getD [] :=
  (c4_mask_from_y_dimension c2Visual 0 0).2.2.2 c2Baked (by decide)

/-! ### The cluster-index buffer (claim C5) -/

/-- C5: the cluster buffer is the dense per-spike index pattern (each raw
id mapped through the cluster order) tiled once per box, unchanged; on
`[5, 5, 9]` with order `[5, 9]`, the per-spike pattern is `[0, 0, 1]`. -/
theorem c5_cluster_buffer (spike_clusters cluster_order : List ℤ)
    (n_rows : ℕ) :
    _bake_spikes_clusters spike_clusters cluster_order (n_rows * n_rows) =
      List.flatten (List.replicate (n_rows * n_rows)
        (_index_of spike_clusters cluster_order)) ∧
    (_bake_spikes_clusters spike_clusters cluster_order
        (n_rows * n_rows)).length =
      n_rows * n_rows * spike_clusters.length ∧
    _index_of [5, 5, 9] [5, 9] = [0, 0, 1] := by
  refine ⟨rfl, ?_, by decide⟩
  simp [_bake_spikes_clusters, npTile, _index_of, List.length_flatten,
    Nat.mul_comm]

/-! ### Axis constraints (claims C6 and C7) -/

/-- C6: the axis-constraint computation starts every bound unconstrained
and, per cell: `dim_x = Time` locks x to `[-1, 1]` with mark `'x'`;
`dim_y = Time` locks y to `[-1, 1]` with mark `'y'`, turning into `'n'`
when x is already locked; a `(Time, non-Time)` cell has x locked and y
left unconstrained. -/
theorem c6_axis_constraints (matrix : List (List (RawDim × RawDim)))
    (i j : ℕ) :
    ((cellAt matrix i j).1 = RawDim.time →
      (cellAt matrix i j).2 ≠ RawDim.time →
      (_set_pan_constraints matrix).xmin i j = some (-1) ∧
      (_set_pan_constraints matrix).xmax i j = some 1 ∧
      (_set_pan_constraints matrix).ymin i j = none ∧
      (_set_pan_constraints matrix).ymax i j = none ∧
      (_set_pan_constraints matrix).gpza i j = AxisLock.xonly) ∧
    ((cellAt matrix i j).1 = RawDim.time →
      (cellAt matrix i j).2 = RawDim.time →
      (_set_pan_constraints matrix).xmin i j = some (-1) ∧
      (_set_pan_constraints matrix).xmax i j = some 1 ∧
      (_set_pan_constraints matrix).ymin i j = some (-1) ∧
      (_set_pan_constraints matrix).ymax i j = some 1 ∧
      (_set_pan_constraints matrix).gpza i j = AxisLock.nofree) ∧
    ((cellAt matrix i j).1 ≠ RawDim.time →
      (cellAt matrix i j).2 = RawDim.time →
      (_set_pan_constraints matrix).xmin i j = none ∧
      (_set_pan_constraints matrix).xmax i j = none ∧
      (_set_pan_constraints matrix).ymin i j = some (-1) ∧
      (_set_pan_constraints matrix).ymax i j = some 1 ∧
      (_set_pan_constraints matrix).gpza i j = AxisLock.yonly) ∧
    ((cellAt matrix i j).1 ≠ RawDim.time →
      (cellAt matrix i j).2 ≠ RawDim.time →
      (_set_pan_constraints matrix).xmin i j = none ∧
      (_set_pan_constraints matrix).xmax i j = none ∧
      (_set_pan_constraints matrix).ymin i j = none ∧
      (_set_pan_constraints matrix).ymax i j = none ∧
      (_set_pan_constraints matrix).gpza i j = AxisLock.both) := by
  refine ⟨fun h1 h2 => ?_, fun h1 h2 => ?_, fun h1 h2 => ?_, fun h1 h2 => ?_⟩ <;>
    simp [_set_pan_constraints, _pan_cell, h1, h2]

/-- The concrete matrix of the C6 witness, with cell `(0,0)` equal to
`(Time, ChannelFeature(0,0))`. -/
def c6Matrix : List (List (RawDim × RawDim)) := [[(.time, .pair 0 0)]]

/-- Witness for C6 on `c6Matrix`: cell `(0,0)` gets x locked to `[-1, 1]`
and y left unconstrained. -/
theorem c6_axis_constraints_witness :
    (_set_pan_constraints c6Matrix).xmin 0 0 = some (-1) ∧
    (_set_pan_constraints c6Matrix).xmax 0 0 = some 1 ∧
    (_set_pan_constraints c6Matrix).ymin 0 0 = none ∧
    (_set_pan_constraints c6Matrix).ymax 0 0 = none ∧
    (_set_pan_constraints c6Matrix).gpza 0 0 = AxisLock.xonly :=
  (c6_axis_constraints c6Matrix 0 0).1 (by decide) (by decide)

lemma pan_index_loop_eq_find (matrix : List (List (RawDim × RawDim)))
    (L : List (ℕ × ℕ)) :
    _pan_index_loop matrix L =
      (L.find? fun p =>
        decide ((cellAt matrix p.1 p.2).2 ≠ RawDim.time)).map
        fun p => (p.1, p.1) := by
  induction L with
  | nil => rfl
  | cons p rest ih =>
      by_cases h : (cellAt matrix p.1 p.2).2 = RawDim.time
      · simp [_pan_index_loop, List.find?_cons, h, ih]
      · simp [_pan_index_loop, List.find?_cons, h]

/-- The concrete matrix of the C7 counterexample: in row-major order the
first cell whose `dim_y` is not `Time` is `(0, 1)`, yet the code picks
`(0, 0)` — a cell whose `dim_y` is `Time`. -/
def c7Matrix : List (List (RawDim × RawDim)) :=
  [[(.pair 0 0, .time), (.pair 0 0, .pair 0 0)],
   [(.pair 0 0, .pair 0 0), (.pair 0 0, .pair 0 0)]]

/-- C7 counterexample: on `c7Matrix` the default active cell chosen by
`_set_pan_constraints` is `(0, 0)`, whose `dim_y` is `Time`; the first
row-major cell with a non-`Time` `dim_y` is `(0, 1)`, which is not the
chosen one. -/
theorem c7_default_cell_counterexample :
    (_set_pan_constraints c7Matrix).index = some (0, 0) ∧
    (cellAt c7Matrix 0 0).2 = RawDim.time ∧
    (cellAt c7Matrix 0 1).2 ≠ RawDim.time ∧
    (_set_pan_constraints c7Matrix).index ≠ some (0, 1) := by
  refine ⟨?_, by decide, by decide, ?_⟩ <;> decide

/-- C7 (amended): the default active cell is `(i, i)` where `(i, j)` is
the first cell in row-major order whose `dim_y` is not `Time` (the row
index is used for both coordinates); when every cell's `dim_y` is `Time`,
no default is set. -/
theorem c7_default_cell (matrix : List (List (RawDim × RawDim))) :
    (_set_pan_constraints matrix).index =
      ((gridCells matrix.length).find? fun p =>
        decide ((cellAt matrix p.1 p.2).2 ≠ RawDim.time)).map
        fun p => (p.1, p.1) :=
  pan_index_loop_eq_find matrix (gridCells matrix.length)

/-! ### The dimensions-matrix setter (claims C8 and C10) -/

/-- A visual with one channel and one feature holding a previously set
`1 × 1` dimensions matrix. -/
def c8Visual : Visual where
  n_spikes := 1
  n_channels := 1
  n_features := 1
  features := fun _ _ _ => 0
  masks := fun _ _ => 1
  spike_samples := none
  n_rows := some 1
  dimensions_matrix := [[(.pair 0 0, .time)]]

/-- A square `2 × 2` matrix containing the out-of-range channel `1`
(`n_channels` is `1`). -/
def c8Value : List (List (RawDim × RawDim)) :=
  [[(.pair 0 0, .time), (.pair 1 0, .time)],
   [(.pair 0 0, .time), (.pair 0 0, .time)]]

/-- C8 counterexample: setting `c8Value` on `c8Visual` fails, and the
previous dimensions matrix is untouched — but the update is not atomic:
`self.n_rows` was already overwritten with the new matrix's size `2`
before validation, so derived state is not left in its last-good
state. -/
theorem c8_atomicity_counterexample :
    setterFailed (_set_dimensions_to_bake c8Visual c8Value) = true ∧
    (setterState
        (_set_dimensions_to_bake c8Visual c8Value)).dimensions_matrix =
      c8Visual.dimensions_matrix ∧
    (setterState (_set_dimensions_to_bake c8Visual c8Value)).n_rows =
      some 2 ∧
    c8Visual.n_rows = some 1 :=
  ⟨rfl, rfl, rfl, rfl⟩

/-- C8 (amended): an invalid dimension in a square matrix makes the
setter raise; the previously set dimensions matrix is unchanged and no
buffers are installed, but `n_rows` has already been overwritten with the
new matrix's size before the validation loop runs, so the derived row
count is not left in its last-good state. -/
theorem c8_setter_failure (st : Visual)
    (value : List (List (RawDim × RawDim)))
    (hsq : squareMatrix value = true)
    (hbad : matrixDimsOk st value = false) :
    _set_dimensions_to_bake st value =
      .error { st with n_rows := some value.length } ∧
    ({ st with n_rows := some value.length } : Visual).dimensions_matrix =
      st.dimensions_matrix ∧
    setterFailed (_set_dimensions_to_bake st value) = true := by
  have hbad' : matrixDimsOk { st with n_rows := some value.length } value =
      false := hbad
  have hmain : _set_dimensions_to_bake st value =
      .error { st with n_rows := some value.length } := by
    simp [_set_dimensions_to_bake, hsq, hbad']
  exact ⟨hmain, rfl, by rw [hmain]; rfl⟩

/-- Witness for C8 on `c8Visual` and `c8Value`: the failed call leaves
the object with the old matrix but the new row count. -/
theorem c8_setter_failure_witness :
    _set_dimensions_to_bake c8Visual c8Value =
      .error { c8Visual with n_rows := some c8Value.length } :=
  (c8_setter_failure c8Visual c8Value (by decide) (by decide)).1

/-- A visual with one channel and one feature for the bare-integer
dimension claim. -/
def c10Visual : Visual where
  n_spikes := 3
  n_channels := 1
  n_features := 1
  features := fun _ _ _ => 0
  masks := fun _ _ => 1
  spike_samples := none
  n_rows := some 1
  dimensions_matrix := [[(.pair 0 0, .time)]]

/-- C10: a bare integer `c` within range passes `_check_dimension` (it is
checked as the pair `(c, 0)`), so a matrix made of bare-integer
dimensions is accepted by the setter — yet `_get_feature_dim` matches
neither the tuple branch nor the `'time'` branch on it and returns
`None`, not a feature column. -/
theorem c10_bare_integer_dimension (st : Visual) (c : ℕ)
    (hc : c < st.n_channels) (hf : 0 < st.n_features) :
    _check_dimension st.n_channels st.n_features (RawDim.int c) = true ∧
    _set_dimensions_to_bake st [[(RawDim.int c, RawDim.int c)]] =
      .ok { st with n_rows := some 1,
                    dimensions_matrix := [[(RawDim.int c, RawDim.int c)]] } ∧
    _get_feature_dim st (RawDim.int c) = PyRes.pyNone ∧
    (_get_feature_dim st (RawDim.int c)).isVal = false := by
  have hchk : _check_dimension st.n_channels st.n_features (RawDim.int c) =
      true := by
    simp [_check_dimension, hc, hf]
  refine ⟨hchk, ?_, rfl, rfl⟩
  have hok : matrixDimsOk { st with n_rows := some (1 : ℕ) }
      [[(RawDim.int c, RawDim.int c)]] = true := by
    simp [matrixDimsOk, hchk]
  simp [_set_dimensions_to_bake, squareMatrix, hok]

/-- Witness for C10 on `c10Visual`: the setter accepts the bare-integer
matrix `[[(0, 0)]]`. -/
theorem c10_bare_integer_dimension_witness :
    _set_dimensions_to_bake c10Visual [[(RawDim.int 0, RawDim.int 0)]] =
      .ok { c10Visual with
            n_rows := some 1,
            dimensions_matrix := [[(RawDim.int 0, RawDim.int 0)]] } :=
  (c10_bare_integer_dimension c10Visual 0 (by decide) (by decide)).2.1

/-! ### `set_data` feature-rank handling (claim C9) -/

/-- C9 counterexample: a rank-2 features array passed to `set_data` does
not fail — it is silently coerced to rank 3 by appending a singleton
axis. -/
theorem c9_rank2_counterexample :
    set_data_features_shape [4, 3] = .ok [4, 3, 1] ∧
    set_data_features_shape [4, 3] ≠ .error () := by
  refine ⟨rfl, fun h => ?_⟩
  simp [set_data_features_shape] at h

/-- C9 (amended): `set_data` only rejects feature arrays whose rank is
neither 2 nor 3; a rank-2 array is coerced to rank 3 by appending a
trailing singleton axis, and a rank-3 array is accepted unchanged. -/
theorem c9_features_rank_check (shape : List ℕ) :
    (shape.length = 2 →
      set_data_features_shape shape = .ok (shape ++ [1])) ∧
    (shape.length = 3 → set_data_features_shape shape = .ok shape) ∧
    (shape.length ≠ 2 → shape.length ≠ 3 →
      set_data_features_shape shape = .error ()) := by
  refine ⟨fun h2 => ?_, fun h3 => ?_, fun h2 h3 => ?_⟩ <;>
    simp [set_data_features_shape, *]

/-- Witness for C9: a rank-1 array is rejected. -/
theorem c9_features_rank_check_witness :
    set_data_features_shape [5] = .error () :=
  (c9_features_rank_check [5]).2.2 (by decide) (by decide)

end Phy
